import Mathlib

/-!
Shallow embedding of the filesystem-registry core of `src/efs/src/fs/fs.c`
(cortx-posix EFS).

Modelling conventions:
* `str256_t` names are abstracted as `Nat`; `str256_cmp(a,b) == 0` is equality.
* The process-wide linked list `fs_list` is a `List EfsFs`; `LIST_INSERT_HEAD`
  is cons, `LIST_REMOVE` removes the specific node that was found by
  `efs_fs_lookup`, i.e. the first node whose name matches.
* External backend calls (`ns_create`, `kvtree_create`, `efs_tree_create_root`,
  `efs_tree_delete_root`, `kvtree_delete`, `ns_delete`, `tenant_create`,
  `tenant_delete`) are oracles: each operation takes the backend return code
  (an `Int`, `0`-or-negative-errno convention) and, where relevant, the payload
  the backend would produce, as explicit arguments.  `RC_WRAP_LABEL(rc, lbl,
  f, ...)` in the C expands to `rc = f(...); if (rc < 0) goto lbl;`, so the
  embedding branches on `rc < 0` exactly where the macro does.
* `malloc` outcomes are explicit `Bool` arguments where the C checks them.
-/

namespace Efs

/-- Errno values used by `fs.c` (from `errno.h`). -/
def ENOENT : Int := 2

def ENOMEM : Int := 12

def EEXIST : Int := 17

def EINVAL : Int := 22

def ENOTEMPTY : Int := 39

/-- `struct namespace`: durable identity of one filesystem.  The external
namespace store (`allocate(name)` in the spec, `ns_create` in the C) returns an
identity carrying the requested name (`ns_get_name` yields it back). -/
structure Namespace where
  id : Nat
  name : Nat
  deriving Repr, DecidableEq

/-- `struct tenant`: a persisted endpoint/tenant record.  `tenant_get_name`
yields `name`, `tenant_get_info` yields `info`. -/
structure Tenant where
  name : Nat
  nsId : Nat
  info : Nat
  deriving Repr, DecidableEq

/-- `struct efs_fs` inside a `struct efs_fs_node`: the registry entry.
`kvtree = none` models the `NULL` kvtree pointer, `tenant = none` the `NULL`
tenant pointer.  (`fs_ns_scan_cb` in the C leaves `tenant` uninitialised; the
embedding uses `none`, the value every defined execution establishes.) -/
structure EfsFs where
  ns : Namespace
  kvtree : Option Nat
  tenant : Option Tenant
  deriving Repr, DecidableEq

/-- `efs_fs_lookup`: scan `fs_list` in order, return the first entry whose
name compares equal (`str256_cmp == 0`); `-ENOENT` (here `none`) otherwise. -/
def efs_fs_lookup (name : Nat) : List EfsFs → Option EfsFs
  | [] => none
  | fs :: rest => if fs.ns.name = name then some fs else efs_fs_lookup name rest

/-- `efs_fs_is_empty`: the C stub unconditionally returns `0` (empty); the
`-ENOTEMPTY` return is commented out behind a `todo`. -/
def efs_fs_is_empty (_fs : EfsFs) : Int := 0

/-- `efs_fs_endpoint_info`: the protocol handle of the attached tenant, or
absent when `fs->tenant == NULL`. -/
def efs_fs_endpoint_info (fs : EfsFs) : Option Nat :=
  fs.tenant.map Tenant.info

/-- Update, in place, the node `efs_fs_lookup` would find (the first node with
the given name): used where the C writes through
`container_of(fs, struct efs_fs_node, efs_fs)`. -/
def setTenantFirst (name : Nat) (t : Option Tenant) : List EfsFs → List EfsFs
  | [] => []
  | fs :: rest =>
      if fs.ns.name = name then { fs with tenant := t } :: rest
      else fs :: setTenantFirst name t rest

/-- `LIST_REMOVE` of the node `efs_fs_lookup` found: drop the first node with
the given name. -/
def removeFirstByName (name : Nat) : List EfsFs → List EfsFs
  | [] => []
  | fs :: rest =>
      if fs.ns.name = name then rest else fs :: removeFirstByName name rest

/-- Result of `efs_fs_create`, tracking the observable effects: the return
code, the registry, the external namespace store (namespaces currently
allocated in the backend), and the number of in-memory `ns` copies that were
`malloc`ed but never `free`d (leaks). -/
structure CreateResult where
  rc : Int
  registry : List EfsFs
  nsStore : List Namespace
  leakedNs : Nat
  deriving Repr, DecidableEq

/-- `efs_fs_create`.  Control flow of the C, line by line:
1. `efs_fs_lookup` hit → `-EEXIST`.
2. `malloc(fs_node)` failure → `-ENOMEM`.
3. `RC_WRAP_LABEL(.., free_fs_node, ns_create, ..)`: backend rc `< 0` frees
   the node and reports it; on success the store now holds the new namespace
   `⟨nsId, fs_name⟩` and the node gets a `malloc`ed copy of it.
4. `RC_WRAP_LABEL(.., free_info, kvtree_create, ..)`: rc `< 0` jumps to
   `free_info`, which (rc ≠ 0) falls into `free_fs_node`: only `fs_node` is
   freed — the `ns` copy leaks and `ns_create` is never undone.
5. `rc = efs_tree_create_root(..)`; at `free_info`, `rc == 0` inserts the node
   at the head of `fs_list`, anything else frees `fs_node` as in step 4. -/
def efs_fs_create (fs_name : Nat) (l : List EfsFs) (nsStore : List Namespace)
    (mallocOk : Bool) (nsRc : Int) (nsId : Nat) (kvRc : Int) (kvHandle : Nat)
    (rootRc : Int) : CreateResult :=
  if (efs_fs_lookup fs_name l).isSome then
    ⟨-EEXIST, l, nsStore, 0⟩
  else if !mallocOk then
    ⟨-ENOMEM, l, nsStore, 0⟩
  else if nsRc < 0 then
    ⟨nsRc, l, nsStore, 0⟩
  else
    let ns : Namespace := ⟨nsId, fs_name⟩
    if kvRc < 0 then
      ⟨kvRc, l, ns :: nsStore, 1⟩
    else if rootRc = 0 then
      ⟨0, ⟨ns, some kvHandle, none⟩ :: l, ns :: nsStore, 0⟩
    else
      ⟨rootRc, l, ns :: nsStore, 1⟩

/-- `efs_fs_delete`.  Control flow of the C:
1. lookup miss → `-ENOENT` (lookup's own rc is returned);
2. `fs->tenant != NULL` → `-EINVAL`;
3. `efs_fs_is_empty` nonzero → that rc (dead branch: the stub returns 0);
4. `RC_WRAP_LABEL(.., out, efs_tree_delete_root, fs)`;
5. `RC_WRAP_LABEL(.., out, kvtree_delete, ..)`;
6. `LIST_REMOVE(fs_node, link)` — the entry leaves the registry HERE;
7. `RC_WRAP_LABEL(.., out, ns_delete, ..)` — its rc is returned either way,
   with the entry already removed. -/
def efs_fs_delete (fs_name : Nat) (l : List EfsFs)
    (rootDelRc kvDelRc nsDelRc : Int) : Int × List EfsFs :=
  match efs_fs_lookup fs_name l with
  | none => (-ENOENT, l)
  | some fs =>
    if fs.tenant.isSome then (-EINVAL, l)
    else if efs_fs_is_empty fs ≠ 0 then (efs_fs_is_empty fs, l)
    else if rootDelRc < 0 then (rootDelRc, l)
    else if kvDelRc < 0 then (kvDelRc, l)
    else (nsDelRc, removeFirstByName fs_name l)

/-- `efs_endpoint_create`.  Lookup miss → `-ENOENT`; already-exported
(`fs->tenant != NULL`) → `-EEXIST`; the protocol hook is a logged no-op;
`RC_WRAP_LABEL(.., out, tenant_create, endpoint_name, &tenant, ns_id, opts)`
fails with the backend rc when `< 0`, otherwise the created tenant record
(named `endpoint_name`, carrying the namespace id and the store-produced
handle `tInfo`) is attached to the node found by lookup. -/
def efs_endpoint_create (endpoint_name : Nat) (l : List EfsFs)
    (tcRc : Int) (tInfo : Nat) : Int × List EfsFs :=
  match efs_fs_lookup endpoint_name l with
  | none => (-ENOENT, l)
  | some fs =>
    if fs.tenant.isSome then (-EEXIST, l)
    else if tcRc < 0 then (tcRc, l)
    else (tcRc, setTenantFirst endpoint_name (some ⟨endpoint_name, fs.ns.id, tInfo⟩) l)

/-- `efs_endpoint_delete`.  Lookup miss → `-ENOENT`; no binding
(`fs->tenant == NULL`) → `-ENOENT`; `RC_WRAP_LABEL(.., out, tenant_delete,
..)` returns the backend rc with the binding still attached when `< 0`;
otherwise the tenant is freed and the node's pointer set to `NULL`. -/
def efs_endpoint_delete (endpoint_name : Nat) (l : List EfsFs)
    (tdRc : Int) : Int × List EfsFs :=
  match efs_fs_lookup endpoint_name l with
  | none => (-ENOENT, l)
  | some fs =>
    match fs.tenant with
    | none => (-ENOENT, l)
    | some _ =>
      if tdRc < 0 then (tdRc, l)
      else (tdRc, setTenantFirst endpoint_name none l)

/-- `fs_ns_scan_cb`: build a registry node for one enumerated namespace.  A
failed `malloc` (of the node, then of the ns copy) logs and skips the record;
otherwise the node (kvtree `NULL`) is inserted at the head of `fs_list`. -/
def fs_ns_scan_cb (l : List EfsFs) (ns : Namespace)
    (mallocNodeOk mallocNsOk : Bool) : List EfsFs :=
  if !mallocNodeOk then l
  else if !mallocNsOk then l
  else ⟨ns, none, none⟩ :: l

/-- Modelled from the spec: the namespace-store enumeration `ns_scan`
(`enumerate() -> stream of (NamespaceIdentity, size)`, spec section 6) is not
under `src/`; it drives `fs_ns_scan_cb` over every persisted namespace, each
paired here with the two malloc outcomes of its callback invocation. -/
def ns_scan : List (Namespace × Bool × Bool) → List EfsFs → List EfsFs
  | [], l => l
  | (ns, m1, m2) :: rest, l => ns_scan rest (fs_ns_scan_cb l ns m1 m2)

/-- `efs_fs_init`: populate the registry (initially empty) from the persisted
namespaces. -/
def efs_fs_init (nss : List (Namespace × Bool × Bool)) : List EfsFs :=
  ns_scan nss []

/-- `endpoint_tenant_scan_cb`: attach one persisted tenant record to the
registry entry with the matching name.  A `NULL` record returns `-ENOENT`.
A record whose name has no registry entry logs the inconsistency and hits
`dassert(rc == 0)` — fatal with assertions on — and the callback's nonzero rc
is returned (with assertions off the C would then write through a garbage
`container_of` pointer; the embedding keeps the defined, fatal behaviour). -/
def endpoint_tenant_scan_cb (l : List EfsFs) (tenant : Option Tenant) :
    Int × List EfsFs :=
  match tenant with
  | none => (-ENOENT, l)
  | some t =>
    match efs_fs_lookup t.name l with
    | none => (-ENOENT, l)
    | some _ => (0, setTenantFirst t.name (some t) l)

/-- Modelled from the spec: the tenant-store enumeration `tenant_scan`
(`enumerate() -> stream of TenantRecord`, spec section 6) is not under
`src/`; it invokes the callback on each persisted record and stops at the
first error, which is then propagated. -/
def tenant_scan (ts : List Tenant) (l : List EfsFs) : Int × List EfsFs :=
  match ts with
  | [] => (0, l)
  | t :: rest =>
    let r := endpoint_tenant_scan_cb l (some t)
    if r.1 < 0 then r else tenant_scan rest r.2

/-- `efs_endpoint_init`: `RC_WRAP_LABEL(rc, out, tenant_scan,
endpoint_tenant_scan_cb, NULL)` — the scan's rc is the init rc. -/
def efs_endpoint_init (ts : List Tenant) (l : List EfsFs) : Int × List EfsFs :=
  tenant_scan ts l

/-- `efs_endpoint_fini`: detach every binding in memory (`tenant = NULL` on
each node); nothing is deleted from persistent storage. -/
def efs_endpoint_fini (l : List EfsFs) : List EfsFs :=
  l.map fun fs => { fs with tenant := none }

/-- The `LIST_FOREACH_SAFE` teardown loop of `efs_fs_fini`: every node is
removed and freed. -/
def removeAll : List EfsFs → List EfsFs
  | [] => []
  | _ :: rest => removeAll rest

/-- `efs_fs_fini`: detach endpoints first (`efs_endpoint_fini`), then remove
and free every registry node. -/
def efs_fs_fini (l : List EfsFs) : List EfsFs :=
  removeAll (efs_endpoint_fini l)

/-- Registry key uniqueness (spec section 3): at most one entry per name. -/
def registryUnique (l : List EfsFs) : Prop :=
  (l.map fun fs => fs.ns.name).Nodup

instance (l : List EfsFs) : Decidable (registryUnique l) := by
  unfold registryUnique; infer_instance

/-! ## Helper lemmas -/

theorem lookup_name_eq {n : Nat} {l : List EfsFs} {fs : EfsFs}
    (h : efs_fs_lookup n l = some fs) : fs.ns.name = n := by
  induction l with
  | nil => simp [efs_fs_lookup] at h
  | cons hd tl ih =>
    simp only [efs_fs_lookup] at h
    by_cases hn : hd.ns.name = n
    · rw [if_pos hn] at h
      injection h with h
      subst h
      exact hn
    · rw [if_neg hn] at h
      exact ih h

theorem lookup_eq_none_iff {n : Nat} {l : List EfsFs} :
    efs_fs_lookup n l = none ↔ ∀ fs ∈ l, fs.ns.name ≠ n := by
  induction l with
  | nil => simp [efs_fs_lookup]
  | cons hd tl ih =>
    simp only [efs_fs_lookup, List.mem_cons]
    by_cases hn : hd.ns.name = n
    · simp [hn]
    · simp only [if_neg hn, ih]
      constructor
      · rintro h fs (rfl | hm)
        · exact hn
        · exact h fs hm
      · intro h fs hm
        exact h fs (Or.inr hm)

theorem lookup_isSome_iff {n : Nat} {l : List EfsFs} :
    (efs_fs_lookup n l).isSome ↔ n ∈ l.map fun fs => fs.ns.name := by
  induction l with
  | nil => simp [efs_fs_lookup]
  | cons hd tl ih =>
    simp only [efs_fs_lookup, List.map_cons, List.mem_cons]
    by_cases hn : hd.ns.name = n
    · simp [hn]
    · simp only [if_neg hn, ih]
      constructor
      · exact Or.inr
      · rintro (rfl | hm)
        · exact absurd rfl hn
        · exact hm

theorem setTenantFirst_map_name (n : Nat) (t : Option Tenant) (l : List EfsFs) :
    ((setTenantFirst n t l).map fun fs => fs.ns.name) =
      l.map fun fs => fs.ns.name := by
  induction l with
  | nil => rfl
  | cons hd tl ih =>
    simp only [setTenantFirst]
    by_cases hn : hd.ns.name = n
    · simp [hn]
    · simp [hn, ih]

theorem lookup_setTenantFirst_self {n : Nat} {l : List EfsFs} {fs : EfsFs}
    (h : efs_fs_lookup n l = some fs) (t : Option Tenant) :
    efs_fs_lookup n (setTenantFirst n t l) = some { fs with tenant := t } := by
  induction l with
  | nil => simp [efs_fs_lookup] at h
  | cons hd tl ih =>
    simp only [efs_fs_lookup, setTenantFirst] at h ⊢
    by_cases hn : hd.ns.name = n
    · rw [if_pos hn] at h
      injection h with h
      subst h
      simp [efs_fs_lookup, hn]
    · rw [if_neg hn] at h
      rw [if_neg hn]
      simp only [efs_fs_lookup, if_neg hn]
      exact ih h

theorem lookup_setTenantFirst_of_ne {m n : Nat} (hmn : m ≠ n) (t : Option Tenant)
    (l : List EfsFs) :
    efs_fs_lookup m (setTenantFirst n t l) = efs_fs_lookup m l := by
  induction l with
  | nil => rfl
  | cons hd tl ih =>
    simp only [setTenantFirst]
    by_cases hn : hd.ns.name = n
    · have hm : ¬ hd.ns.name = m := by
        rw [hn]
        exact fun h => hmn h.symm
      rw [if_pos hn]
      simp [efs_fs_lookup, hm]
    · rw [if_neg hn]
      by_cases hm : hd.ns.name = m
      · simp [efs_fs_lookup, hm]
      · simp [efs_fs_lookup, hm, ih]

theorem removeFirstByName_name_sublist (n : Nat) (l : List EfsFs) :
    ((removeFirstByName n l).map fun fs => fs.ns.name).Sublist
      (l.map fun fs => fs.ns.name) := by
  induction l with
  | nil => simp [removeFirstByName]
  | cons hd tl ih =>
    simp only [removeFirstByName]
    by_cases hn : hd.ns.name = n
    · rw [if_pos hn]
      simp only [List.map_cons]
      exact List.sublist_cons_self _ _
    · rw [if_neg hn]
      simp only [List.map_cons]
      exact ih.cons₂ _

theorem tenant_scan_map_name (ts : List Tenant) (l : List EfsFs) :
    ((tenant_scan ts l).2.map fun fs => fs.ns.name) =
      l.map fun fs => fs.ns.name := by
  induction ts generalizing l with
  | nil => rfl
  | cons t rest ih =>
    simp only [tenant_scan, endpoint_tenant_scan_cb]
    cases hl : efs_fs_lookup t.name l with
    | none => simp [ENOENT]
    | some fs =>
      simp only []
      rw [if_neg (by norm_num)]
      rw [ih, setTenantFirst_map_name]

theorem tenant_scan_lookup_of_not_mem {m : Nat} {ts : List Tenant}
    (hm : m ∉ ts.map Tenant.name) (l : List EfsFs) :
    efs_fs_lookup m (tenant_scan ts l).2 = efs_fs_lookup m l := by
  induction ts generalizing l with
  | nil => rfl
  | cons t rest ih =>
    simp only [List.map_cons, List.mem_cons, not_or] at hm
    simp only [tenant_scan, endpoint_tenant_scan_cb]
    cases hl : efs_fs_lookup t.name l with
    | none => simp [ENOENT]
    | some fs =>
      simp only []
      rw [if_neg (by norm_num)]
      rw [ih hm.2, lookup_setTenantFirst_of_ne hm.1]

theorem removeAll_eq_nil (l : List EfsFs) : removeAll l = [] := by
  induction l with
  | nil => rfl
  | cons hd tl ih => simpa [removeAll] using ih

theorem lookup_setTenantFirst_isSome (m n : Nat) (t : Option Tenant)
    (l : List EfsFs) :
    (efs_fs_lookup m (setTenantFirst n t l)).isSome ↔
      (efs_fs_lookup m l).isSome := by
  rw [lookup_isSome_iff, lookup_isSome_iff, setTenantFirst_map_name]

theorem lookup_setTenantFirst_eq_none (m n : Nat) (t : Option Tenant)
    (l : List EfsFs) :
    efs_fs_lookup m (setTenantFirst n t l) = none ↔ efs_fs_lookup m l = none := by
  rw [← Option.not_isSome_iff_eq_none, ← Option.not_isSome_iff_eq_none]
  exact not_congr (lookup_setTenantFirst_isSome m n t l)

theorem tenant_scan_attach (ts : List Tenant) :
    ∀ l : List EfsFs, (ts.map Tenant.name).Nodup →
      (∀ t ∈ ts, (efs_fs_lookup t.name l).isSome) →
      (tenant_scan ts l).1 = 0 ∧
      ∀ t ∈ ts, ∃ fs, efs_fs_lookup t.name (tenant_scan ts l).2 = some fs ∧
        fs.tenant = some t := by
  induction ts with
  | nil =>
    intro l _ _
    exact ⟨rfl, by simp⟩
  | cons t0 rest ih =>
    intro l hnodup hall
    obtain ⟨fs0, hfs0⟩ : ∃ fs0, efs_fs_lookup t0.name l = some fs0 :=
      Option.isSome_iff_exists.mp (hall t0 (List.mem_cons_self _ _))
    simp only [List.map_cons, List.nodup_cons] at hnodup
    have hstep : tenant_scan (t0 :: rest) l =
        tenant_scan rest (setTenantFirst t0.name (some t0) l) := by
      simp [tenant_scan, endpoint_tenant_scan_cb, hfs0]
    have hrest := ih (setTenantFirst t0.name (some t0) l) hnodup.2
      (fun t htm => (lookup_setTenantFirst_isSome t.name t0.name (some t0) l).mpr
        (hall t (List.mem_cons_of_mem _ htm)))
    rw [hstep]
    refine ⟨hrest.1, ?_⟩
    intro t htm
    rcases List.mem_cons.mp htm with rfl | htr
    · refine ⟨{ fs0 with tenant := some t }, ?_, rfl⟩
      rw [tenant_scan_lookup_of_not_mem hnodup.1]
      exact lookup_setTenantFirst_self hfs0 (some t)
    · exact hrest.2 t htr

theorem tenant_scan_fails_of_missing (ts : List Tenant) :
    ∀ l : List EfsFs, (∃ t ∈ ts, efs_fs_lookup t.name l = none) →
      (tenant_scan ts l).1 ≠ 0 := by
  induction ts with
  | nil =>
    intro l h
    simp at h
  | cons t0 rest ih =>
    rintro l ⟨t, ht, hnone⟩
    rcases List.mem_cons.mp ht with rfl | htr
    · simp [tenant_scan, endpoint_tenant_scan_cb, hnone, ENOENT]
    · cases hl0 : efs_fs_lookup t0.name l with
      | none => simp [tenant_scan, endpoint_tenant_scan_cb, hl0, ENOENT]
      | some fs0 =>
        have hstep : tenant_scan (t0 :: rest) l =
            tenant_scan rest (setTenantFirst t0.name (some t0) l) := by
          simp [tenant_scan, endpoint_tenant_scan_cb, hl0]
        rw [hstep]
        exact ih _ ⟨t, htr,
          (lookup_setTenantFirst_eq_none t.name t0.name (some t0) l).mpr hnone⟩

theorem create_registry_cases (fs_name : Nat) (l : List EfsFs)
    (nsStore : List Namespace) (mOk : Bool) (nsRc : Int) (nsId : Nat)
    (kvRc : Int) (kvH : Nat) (rootRc : Int) :
    (efs_fs_create fs_name l nsStore mOk nsRc nsId kvRc kvH rootRc).registry = l ∨
    ((efs_fs_create fs_name l nsStore mOk nsRc nsId kvRc kvH rootRc).registry =
        ⟨⟨nsId, fs_name⟩, some kvH, none⟩ :: l ∧
      efs_fs_lookup fs_name l = none) := by
  simp only [efs_fs_create]
  split_ifs with h1 h2 h3 h4 h5
  · exact Or.inl rfl
  · exact Or.inl rfl
  · exact Or.inl rfl
  · exact Or.inl rfl
  · exact Or.inr ⟨rfl, Option.not_isSome_iff_eq_none.mp (by simpa using h1)⟩
  · exact Or.inl rfl

theorem delete_registry_cases (fs_name : Nat) (l : List EfsFs)
    (rootDelRc kvDelRc nsDelRc : Int) :
    (efs_fs_delete fs_name l rootDelRc kvDelRc nsDelRc).2 = l ∨
    (efs_fs_delete fs_name l rootDelRc kvDelRc nsDelRc).2 =
      removeFirstByName fs_name l := by
  simp only [efs_fs_delete]
  cases efs_fs_lookup fs_name l with
  | none => exact Or.inl rfl
  | some fs =>
    dsimp only
    split_ifs <;> first | exact Or.inl rfl | exact Or.inr rfl

theorem endpoint_create_map_name (nm : Nat) (l : List EfsFs) (tcRc : Int)
    (tInfo : Nat) :
    ((efs_endpoint_create nm l tcRc tInfo).2.map fun fs => fs.ns.name) =
      l.map fun fs => fs.ns.name := by
  simp only [efs_endpoint_create]
  cases efs_fs_lookup nm l with
  | none => rfl
  | some fs =>
    dsimp only
    split_ifs <;> first | rfl | exact setTenantFirst_map_name _ _ _

theorem endpoint_delete_map_name (nm : Nat) (l : List EfsFs) (tdRc : Int) :
    ((efs_endpoint_delete nm l tdRc).2.map fun fs => fs.ns.name) =
      l.map fun fs => fs.ns.name := by
  simp only [efs_endpoint_delete]
  cases efs_fs_lookup nm l with
  | none => rfl
  | some fs =>
    dsimp only
    cases fs.tenant with
    | none => rfl
    | some t =>
      dsimp only
      split_ifs <;> first | rfl | exact setTenantFirst_map_name _ _ _

theorem endpoint_fini_map_name (l : List EfsFs) :
    ((efs_endpoint_fini l).map fun fs => fs.ns.name) =
      l.map fun fs => fs.ns.name := by
  induction l with
  | nil => rfl
  | cons hd tl ih =>
    simp only [efs_endpoint_fini, List.map_cons] at ih ⊢
    rw [ih]

theorem fs_ns_scan_cb_eq_insert (l : List EfsFs) (ns : Namespace) :
    fs_ns_scan_cb l ns true true = ⟨ns, none, none⟩ :: l := rfl

theorem fs_ns_scan_cb_skip_node (l : List EfsFs) (ns : Namespace) (m2 : Bool) :
    fs_ns_scan_cb l ns false m2 = l := rfl

theorem fs_ns_scan_cb_skip_ns (l : List EfsFs) (ns : Namespace) :
    fs_ns_scan_cb l ns true false = l := rfl

theorem ns_scan_unique (nss : List (Namespace × Bool × Bool)) :
    ∀ l : List EfsFs, registryUnique l →
      (∀ x ∈ nss, x.1.name ∉ l.map fun fs => fs.ns.name) →
      (nss.map fun x => x.1.name).Nodup →
      registryUnique (ns_scan nss l) := by
  induction nss with
  | nil =>
    intro l hl _ _
    exact hl
  | cons hd rest ih =>
    intro l hl hdisj hnodup
    obtain ⟨ns, m1, m2⟩ := hd
    simp only [List.map_cons, List.nodup_cons] at hnodup
    simp only [ns_scan]
    cases m1 with
    | false =>
      rw [fs_ns_scan_cb_skip_node]
      exact ih l hl (fun x hx => hdisj x (List.mem_cons_of_mem _ hx)) hnodup.2
    | true =>
      cases m2 with
      | false =>
        rw [fs_ns_scan_cb_skip_ns]
        exact ih l hl (fun x hx => hdisj x (List.mem_cons_of_mem _ hx)) hnodup.2
      | true =>
        rw [fs_ns_scan_cb_eq_insert]
        apply ih
        · show ((({ ns := ns, kvtree := none, tenant := none } : EfsFs) ::
            l).map fun fs => fs.ns.name).Nodup
          rw [List.map_cons]
          exact List.nodup_cons.mpr
            ⟨hdisj (ns, true, true) (List.mem_cons_self _ _), hl⟩
        · intro x hx
          rw [List.map_cons, List.mem_cons]
          rintro (heq | hmem)
          · exact hnodup.1 (heq ▸ List.mem_map_of_mem (fun y => y.1.name) hx)
          · exact hdisj x (List.mem_cons_of_mem _ hx) hmem
        · exact hnodup.2

/-! ## Claim theorems -/

/-- C6: the emptiness check `efs_fs_is_empty` consulted by `efs_fs_delete` is
a stub that reports empty (`0`) for every filesystem, so `delete` can never
fail with `NotEmpty` because of the tree's contents — contradicting the
claimed behaviour that a filesystem with entries other than its root is
rejected with `NotEmpty`. -/
theorem efs_fs_is_empty_always_empty (fs : EfsFs) : efs_fs_is_empty fs = 0 :=
  rfl

/-- C2: evaluated at a concrete failing input — `create` of name 5 on an
empty registry where the backend `kvtree_create` fails with `-5` — the code
reports the error and leaves no partial registry entry, but the freshly
allocated namespace `⟨7, 5⟩` is still in the namespace store (no rollback via
`ns_delete`) and the in-memory `ns` copy is leaked (only `fs_node` is freed). -/
theorem efs_fs_create_no_rollback :
    efs_fs_create 5 [] [] true 0 7 (-5) 0 0 =
      ⟨-5, [], [⟨7, 5⟩], 1⟩ := by
  decide

/-- C4: a second `create` of a name already in the registry fails with
`-EEXIST` (`AlreadyExists`) and returns before any allocation: the registry,
the namespace store and the leak count are exactly as before the call. -/
theorem efs_fs_create_already_exists (fs_name : Nat) (l : List EfsFs)
    (nsStore : List Namespace) (mOk : Bool) (nsRc : Int) (nsId : Nat)
    (kvRc : Int) (kvH : Nat) (rootRc : Int)
    (h : (efs_fs_lookup fs_name l).isSome) :
    efs_fs_create fs_name l nsStore mOk nsRc nsId kvRc kvH rootRc =
      ⟨-EEXIST, l, nsStore, 0⟩ := by
  simp [efs_fs_create, h]

/-- Witness for C4 at a concrete registry holding name 5. -/
theorem efs_fs_create_already_exists_witness :
    efs_fs_create 5 [⟨⟨1, 5⟩, none, none⟩] [] true 0 2 0 3 0 =
      ⟨-EEXIST, [⟨⟨1, 5⟩, none, none⟩], [], 0⟩ :=
  efs_fs_create_already_exists 5 [⟨⟨1, 5⟩, none, none⟩] [] true 0 2 0 3 0
    (by decide)

/-- C5: `delete` of a filesystem with an attached endpoint binding fails with
`-EINVAL` (`InvalidState`), the registry is unchanged, and the entry is still
found by lookup with its binding still attached. -/
theorem efs_fs_delete_exported_fails (fs_name : Nat) (l : List EfsFs)
    (fs : EfsFs) (t : Tenant) (rootDelRc kvDelRc nsDelRc : Int)
    (hfs : efs_fs_lookup fs_name l = some fs) (ht : fs.tenant = some t) :
    efs_fs_delete fs_name l rootDelRc kvDelRc nsDelRc = (-EINVAL, l) ∧
      efs_fs_lookup fs_name (efs_fs_delete fs_name l rootDelRc kvDelRc nsDelRc).2 =
        some fs ∧
      fs.tenant = some t := by
  have h1 : efs_fs_delete fs_name l rootDelRc kvDelRc nsDelRc = (-EINVAL, l) := by
    simp [efs_fs_delete, hfs, ht]
  refine ⟨h1, ?_, ht⟩
  rw [h1]
  exact hfs

/-- Witness for C5 at a concrete registry with an exported filesystem. -/
theorem efs_fs_delete_exported_fails_witness :
    efs_fs_delete 5 [⟨⟨1, 5⟩, some 3, some ⟨5, 1, 9⟩⟩] 0 0 0 =
      (-EINVAL, [⟨⟨1, 5⟩, some 3, some ⟨5, 1, 9⟩⟩]) :=
  (efs_fs_delete_exported_fails 5 [⟨⟨1, 5⟩, some 3, some ⟨5, 1, 9⟩⟩]
    ⟨⟨1, 5⟩, some 3, some ⟨5, 1, 9⟩⟩ ⟨5, 1, 9⟩ 0 0 0 (by decide) rfl).1

/-- C10: when the tenant store's delete of the persisted binding fails
(`tenant_delete` returns a negative rc), `endpoint_delete` propagates that rc
unchanged and leaves the registry untouched: the binding is still attached and
`endpoint_info` still reports the bound handle. -/
theorem efs_endpoint_delete_backend_failure (nm : Nat) (l : List EfsFs)
    (fs : EfsFs) (t : Tenant) (tdRc : Int)
    (hfs : efs_fs_lookup nm l = some fs) (ht : fs.tenant = some t)
    (hrc : tdRc < 0) :
    efs_endpoint_delete nm l tdRc = (tdRc, l) ∧
      ∃ fs2, efs_fs_lookup nm (efs_endpoint_delete nm l tdRc).2 = some fs2 ∧
        efs_fs_endpoint_info fs2 = some t.info := by
  have h1 : efs_endpoint_delete nm l tdRc = (tdRc, l) := by
    simp [efs_endpoint_delete, hfs, ht, hrc]
  refine ⟨h1, fs, ?_, ?_⟩
  · rw [h1]
    exact hfs
  · simp [efs_fs_endpoint_info, ht]

/-- Witness for C10 with a concrete bound registry and backend rc `-5`. -/
theorem efs_endpoint_delete_backend_failure_witness :
    efs_endpoint_delete 5 [⟨⟨1, 5⟩, some 3, some ⟨5, 1, 9⟩⟩] (-5) =
      (-5, [⟨⟨1, 5⟩, some 3, some ⟨5, 1, 9⟩⟩]) :=
  (efs_endpoint_delete_backend_failure 5 [⟨⟨1, 5⟩, some 3, some ⟨5, 1, 9⟩⟩]
    ⟨⟨1, 5⟩, some 3, some ⟨5, 1, 9⟩⟩ ⟨5, 1, 9⟩ (-5) (by decide) rfl
    (by norm_num)).1

/-- C1 counterexample: with one unexported filesystem named 5 registered, and
the backend succeeding at tree-root and metadata-tree deletion but failing
`ns_delete` with `-5`, `efs_fs_delete` reports the failure yet the entry has
already been removed from the registry — refuting the claim that a failure at
any of the three deletion steps leaves the entry in the registry and that
removal happens only after all three succeed. -/
theorem efs_fs_delete_ns_failure_entry_gone :
    (efs_fs_delete 5 [⟨⟨1, 5⟩, some 3, none⟩] 0 0 (-5)).1 = -5 ∧
      efs_fs_lookup 5 (efs_fs_delete 5 [⟨⟨1, 5⟩, some 3, none⟩] 0 0 (-5)).2 =
        none := by
  decide

/-- C1 (amended): on a registered, unexported filesystem, `delete` deletes
the tree root, then the metadata tree, then removes the entry from the
registry, and only then deletes the NamespaceIdentity.  A failure of the
tree-root or metadata-tree deletion is reported with the entry still in the
registry; once those two succeed the entry is removed regardless of the
`ns_delete` outcome, whose rc becomes the call's result. -/
theorem efs_fs_delete_order (fs_name : Nat) (l : List EfsFs) (fs : EfsFs)
    (rootDelRc kvDelRc nsDelRc : Int)
    (hfs : efs_fs_lookup fs_name l = some fs) (ht : fs.tenant = none) :
    (rootDelRc < 0 →
      efs_fs_delete fs_name l rootDelRc kvDelRc nsDelRc = (rootDelRc, l)) ∧
    (0 ≤ rootDelRc → kvDelRc < 0 →
      efs_fs_delete fs_name l rootDelRc kvDelRc nsDelRc = (kvDelRc, l)) ∧
    (0 ≤ rootDelRc → 0 ≤ kvDelRc →
      efs_fs_delete fs_name l rootDelRc kvDelRc nsDelRc =
        (nsDelRc, removeFirstByName fs_name l)) := by
  refine ⟨fun h1 => ?_, fun h1 h2 => ?_, fun h1 h2 => ?_⟩
  · simp [efs_fs_delete, efs_fs_is_empty, hfs, ht, h1]
  · simp [efs_fs_delete, efs_fs_is_empty, hfs, ht, not_lt.mpr h1, h2]
  · simp [efs_fs_delete, efs_fs_is_empty, hfs, ht, not_lt.mpr h1, not_lt.mpr h2]

/-- Witness for the amended C1: all three backend deletions succeed and the
entry leaves the registry. -/
theorem efs_fs_delete_order_witness :
    efs_fs_delete 5 [⟨⟨1, 5⟩, some 3, none⟩] 0 0 0 =
      (0, removeFirstByName 5 [⟨⟨1, 5⟩, some 3, none⟩]) :=
  (efs_fs_delete_order 5 [⟨⟨1, 5⟩, some 3, none⟩] ⟨⟨1, 5⟩, some 3, none⟩
    0 0 0 (by decide) rfl).2.2 (by norm_num) (by norm_num)

/-- C7: creating a name that is not yet registered (with the backend
succeeding) succeeds, and a subsequent lookup of that name finds an entry
whose name is exactly the created name. -/
theorem efs_fs_create_then_lookup (fs_name : Nat) (l : List EfsFs)
    (nsStore : List Namespace) (nsRc : Int) (nsId : Nat) (kvRc : Int)
    (kvH : Nat) (h : efs_fs_lookup fs_name l = none) (hns : 0 ≤ nsRc)
    (hkv : 0 ≤ kvRc) :
    (efs_fs_create fs_name l nsStore true nsRc nsId kvRc kvH 0).rc = 0 ∧
      ∃ fs, efs_fs_lookup fs_name
          (efs_fs_create fs_name l nsStore true nsRc nsId kvRc kvH 0).registry =
          some fs ∧
        fs.ns.name = fs_name := by
  have hs : (efs_fs_lookup fs_name l).isSome = false := by
    rw [h]
    rfl
  have hcreate : efs_fs_create fs_name l nsStore true nsRc nsId kvRc kvH 0 =
      ⟨0, ⟨⟨nsId, fs_name⟩, some kvH, none⟩ :: l, ⟨nsId, fs_name⟩ :: nsStore, 0⟩ := by
    simp [efs_fs_create, hs, not_lt.mpr hns, not_lt.mpr hkv]
  rw [hcreate]
  exact ⟨rfl, ⟨⟨nsId, fs_name⟩, some kvH, none⟩, by simp [efs_fs_lookup], rfl⟩

/-- Witness for C7: create name 5 on the empty registry, then look it up. -/
theorem efs_fs_create_then_lookup_witness :
    (efs_fs_create 5 [] [] true 0 1 0 2 0).rc = 0 ∧
      ∃ fs, efs_fs_lookup 5 (efs_fs_create 5 [] [] true 0 1 0 2 0).registry =
          some fs ∧
        fs.ns.name = 5 :=
  efs_fs_create_then_lookup 5 [] [] 0 1 0 2 rfl (by norm_num) (by norm_num)

/-- C8: on a registered filesystem without a binding, `endpoint_create` then
`endpoint_delete` (both backends succeeding) restores the no-binding state:
the entry's endpoint info is absent afterwards, a second `endpoint_delete`
fails with `-ENOENT`, and in general `endpoint_delete` returns `-ENOENT` both
on a filesystem without a binding and on a name with no filesystem. -/
theorem efs_endpoint_create_delete_roundtrip (nm : Nat) (l : List EfsFs)
    (fs : EfsFs) (tcRc tdRc tdRc2 : Int) (tInfo : Nat)
    (hfs : efs_fs_lookup nm l = some fs) (ht : fs.tenant = none)
    (htc : 0 ≤ tcRc) (htd : 0 ≤ tdRc) :
    (∃ fs2, efs_fs_lookup nm
        (efs_endpoint_delete nm (efs_endpoint_create nm l tcRc tInfo).2 tdRc).2 =
          some fs2 ∧
      efs_fs_endpoint_info fs2 = none) ∧
    (efs_endpoint_delete nm
        (efs_endpoint_delete nm (efs_endpoint_create nm l tcRc tInfo).2 tdRc).2
        tdRc2).1 = -ENOENT ∧
    (∀ (l2 : List EfsFs) (fs2 : EfsFs), efs_fs_lookup nm l2 = some fs2 →
      fs2.tenant = none → (efs_endpoint_delete nm l2 tdRc2).1 = -ENOENT) ∧
    (∀ l2 : List EfsFs, efs_fs_lookup nm l2 = none →
      (efs_endpoint_delete nm l2 tdRc2).1 = -ENOENT) := by
  have hcr : (efs_endpoint_create nm l tcRc tInfo).2 =
      setTenantFirst nm (some ⟨nm, fs.ns.id, tInfo⟩) l := by
    simp [efs_endpoint_create, hfs, ht, not_lt.mpr htc]
  have hl1 : efs_fs_lookup nm (setTenantFirst nm (some ⟨nm, fs.ns.id, tInfo⟩) l) =
      some { fs with tenant := some ⟨nm, fs.ns.id, tInfo⟩ } :=
    lookup_setTenantFirst_self hfs _
  have hdel : (efs_endpoint_delete nm
      (setTenantFirst nm (some ⟨nm, fs.ns.id, tInfo⟩) l) tdRc).2 =
      setTenantFirst nm none (setTenantFirst nm (some ⟨nm, fs.ns.id, tInfo⟩) l) := by
    simp [efs_endpoint_delete, hl1, not_lt.mpr htd]
  have hl2 : efs_fs_lookup nm
      (setTenantFirst nm none (setTenantFirst nm (some ⟨nm, fs.ns.id, tInfo⟩) l)) =
      some { fs with tenant := none } :=
    lookup_setTenantFirst_self hl1 none
  have hgen1 : ∀ (l2 : List EfsFs) (fs2 : EfsFs), efs_fs_lookup nm l2 = some fs2 →
      fs2.tenant = none → (efs_endpoint_delete nm l2 tdRc2).1 = -ENOENT := by
    intro l2 fs2 h2 h3
    simp [efs_endpoint_delete, h2, h3]
  have hgen2 : ∀ l2 : List EfsFs, efs_fs_lookup nm l2 = none →
      (efs_endpoint_delete nm l2 tdRc2).1 = -ENOENT := by
    intro l2 h2
    simp [efs_endpoint_delete, h2]
  refine ⟨?_, ?_, hgen1, hgen2⟩
  · rw [hcr, hdel]
    exact ⟨{ fs with tenant := none }, hl2, rfl⟩
  · rw [hcr, hdel]
    exact hgen1 _ { fs with tenant := none } hl2 rfl

/-- Witness for C8 on a one-entry registry: the second `endpoint_delete`
after a create/delete round trip reports `-ENOENT`. -/
theorem efs_endpoint_create_delete_roundtrip_witness :
    (efs_endpoint_delete 5 (efs_endpoint_delete 5
        (efs_endpoint_create 5 [⟨⟨1, 5⟩, none, none⟩] 0 9).2 0).2 0).1 =
      -ENOENT :=
  (efs_endpoint_create_delete_roundtrip 5 [⟨⟨1, 5⟩, none, none⟩]
    ⟨⟨1, 5⟩, none, none⟩ 0 0 0 9 (by decide) rfl (by norm_num)
    (by norm_num)).2.1

/-- C3: startup endpoint loading.  If every persisted tenant record (with
pairwise-distinct names, the tenant store's key invariant) has a matching
registry entry, `efs_endpoint_init` succeeds and attaches each record to the
entry whose name matches it; if any record has no matching entry, the
consistency violation makes `efs_endpoint_init` return a nonzero rc — the
startup fails instead of silently skipping the record. -/
theorem efs_endpoint_init_consistency (ts : List Tenant) (l : List EfsFs) :
    ((ts.map Tenant.name).Nodup →
      (∀ t ∈ ts, (efs_fs_lookup t.name l).isSome) →
      (efs_endpoint_init ts l).1 = 0 ∧
      ∀ t ∈ ts, ∃ fs, efs_fs_lookup t.name (efs_endpoint_init ts l).2 = some fs ∧
        fs.tenant = some t) ∧
    ((∃ t ∈ ts, efs_fs_lookup t.name l = none) →
      (efs_endpoint_init ts l).1 ≠ 0) :=
  ⟨fun hnodup hall => tenant_scan_attach ts l hnodup hall,
   fun hex => tenant_scan_fails_of_missing ts l hex⟩

/-- Witness for C3: one tenant record named 5, one registry entry named 5 —
the init succeeds. -/
theorem efs_endpoint_init_consistency_witness :
    (efs_endpoint_init [⟨5, 1, 9⟩] [⟨⟨1, 5⟩, none, none⟩]).1 = 0 :=
  ((efs_endpoint_init_consistency [⟨5, 1, 9⟩] [⟨⟨1, 5⟩, none, none⟩]).1
    (by decide) (by decide)).1

/-- C9: registry key uniqueness is an invariant of every operation: `create`
(which never inserts a second entry for an existing name), `delete`,
`endpoint_create`, `endpoint_delete`, startup loading (`efs_fs_init` from a
namespace store whose enumerated names are pairwise distinct, then
`efs_endpoint_init`), and shutdown (`efs_endpoint_fini`, `efs_fs_fini`). -/
theorem registry_unique_invariant :
    (∀ (fs_name : Nat) (l : List EfsFs) (nsStore : List Namespace) (mOk : Bool)
        (nsRc : Int) (nsId : Nat) (kvRc : Int) (kvH : Nat) (rootRc : Int),
      registryUnique l →
      registryUnique
        (efs_fs_create fs_name l nsStore mOk nsRc nsId kvRc kvH rootRc).registry) ∧
    (∀ (fs_name : Nat) (l : List EfsFs) (r k n : Int), registryUnique l →
      registryUnique (efs_fs_delete fs_name l r k n).2) ∧
    (∀ (nm : Nat) (l : List EfsFs) (tc : Int) (ti : Nat), registryUnique l →
      registryUnique (efs_endpoint_create nm l tc ti).2) ∧
    (∀ (nm : Nat) (l : List EfsFs) (td : Int), registryUnique l →
      registryUnique (efs_endpoint_delete nm l td).2) ∧
    (∀ nss : List (Namespace × Bool × Bool), (nss.map fun x => x.1.name).Nodup →
      registryUnique (efs_fs_init nss)) ∧
    (∀ (ts : List Tenant) (l : List EfsFs), registryUnique l →
      registryUnique (efs_endpoint_init ts l).2) ∧
    (∀ l : List EfsFs, registryUnique l → registryUnique (efs_endpoint_fini l)) ∧
    (∀ l : List EfsFs, registryUnique (efs_fs_fini l)) := by
  refine ⟨?_, ?_, ?_, ?_, ?_, ?_, ?_, ?_⟩
  · intro fs_name l nsStore mOk nsRc nsId kvRc kvH rootRc hl
    rcases create_registry_cases fs_name l nsStore mOk nsRc nsId kvRc kvH rootRc
      with hcase | ⟨hcase, hnone⟩
    · rw [hcase]
      exact hl
    · rw [hcase]
      unfold registryUnique
      rw [List.map_cons]
      refine List.nodup_cons.mpr ⟨?_, hl⟩
      intro hmem
      rw [lookup_eq_none_iff] at hnone
      obtain ⟨fs, hfsl, hname⟩ := List.mem_map.mp hmem
      exact hnone fs hfsl hname
  · intro fs_name l r k n hl
    rcases delete_registry_cases fs_name l r k n with hcase | hcase
    · rw [hcase]
      exact hl
    · rw [hcase]
      unfold registryUnique at hl ⊢
      exact List.Nodup.sublist (removeFirstByName_name_sublist fs_name l) hl
  · intro nm l tc ti hl
    unfold registryUnique at hl ⊢
    rw [endpoint_create_map_name]
    exact hl
  · intro nm l td hl
    unfold registryUnique at hl ⊢
    rw [endpoint_delete_map_name]
    exact hl
  · intro nss h
    exact ns_scan_unique nss [] (by simp [registryUnique]) (by simp) h
  · intro ts l hl
    unfold registryUnique at hl ⊢
    rw [efs_endpoint_init, tenant_scan_map_name]
    exact hl
  · intro l hl
    unfold registryUnique at hl ⊢
    rw [endpoint_fini_map_name]
    exact hl
  · intro l
    simp [efs_fs_fini, removeAll_eq_nil, registryUnique]

/-- Witness for C9: a create on the (unique) empty registry keeps it unique. -/
theorem registry_unique_invariant_witness :
    registryUnique (efs_fs_create 5 [] [] true 0 1 0 2 0).registry :=
  registry_unique_invariant.1 5 [] [] true 0 1 0 2 0 (by decide)

end Efs
